import Mathlib

/-
Verification of the sightglass-cli classification core.

Shallow embedding of:
  - src/classifiers/categories.ts   (taxonomy, categorizePackage)
  - src/classifiers/build-vs-buy.ts (detectCustomImplementation,
    extractPackageNames, getBuildVsBuySummary)
  - the PreToolUse install-interception hook (session bypass store and the
    main control flow of its exit decision)

Strings in the repository are ASCII; JavaScript's toLowerCase, \s and the
dot of its regexes are therefore modelled on ASCII characters.
-/

set_option maxHeartbeats 1000000
set_option maxRecDepth 100000
set_option linter.unnecessarySeqFocus false

-- ── String primitives (ASCII models of the JS string operations) ──

/-- ASCII lower-casing of one character, the behaviour of
JavaScript's toLowerCase on the ASCII strings this program handles. -/
def lowerChar (c : Char) : Char :=
  if 65 ≤ c.toNat ∧ c.toNat ≤ 90 then Char.ofNat (c.toNat + 32) else c

/-- Model of String.prototype.toLowerCase (ASCII). -/
def lowerStr (s : String) : String := String.mk (s.data.map lowerChar)

/-- Does hay contain needle as a contiguous sublist?  Model of
String.prototype.includes. -/
def listContainsSub (needle hay : List Char) : Bool :=
  needle.isPrefixOf hay ||
    match hay with
    | [] => false
    | _ :: t => listContainsSub needle t

/-- Model of hay.includes(needle). -/
def strContainsSub (hay needle : String) : Bool := listContainsSub needle.data hay.data

/-- Model of s.startsWith(pat). -/
def strStartsWith (s pat : String) : Bool := pat.data.isPrefixOf s.data

/-- Model of s.endsWith(pat); an anchored regex /lit$/ tests exactly this. -/
def strEndsWith (s pat : String) : Bool := pat.data.reverse.isPrefixOf s.data.reverse

-- ── Data model ──

/-- Modelled from the spec: the normalized event record (its declaration,
src/collectors/types.ts, is not in the source tree).  Only action, raw and
result are read by the build-vs-buy detector. -/
structure RawEvent where
  id : String := ""
  sessionId : String := ""
  timestamp : Nat := 0
  agent : String := ""
  action : String := ""
  raw : String := ""
  result : Option String := none
  exitCode : Option Int := none
  cwd : Option String := none
deriving DecidableEq, Repr

-- ── categories.ts ──

/-- The static taxonomy TOOL_CATEGORIES, in source (insertion) order. -/
def TOOL_CATEGORIES : List (String × List String) := [
  ("CI/CD", ["github-actions", "gitlab-ci", "circleci", "jenkins", "travis-ci", "drone", "buildkite", "woodpecker"]),
  ("Authentication", ["passport", "jsonwebtoken", "bcrypt", "bcryptjs", "jose", "next-auth", "clerk", "auth0", "firebase-auth", "supabase-auth", "lucia", "arctic", "oslo", "better-auth", "devise", "authlib"]),
  ("State Management", ["zustand", "redux", "mobx", "jotai", "recoil", "valtio", "xstate", "pinia", "nanostores", "effector", "redux-toolkit", "@reduxjs/toolkit"]),
  ("ORM/Database", ["prisma", "drizzle", "drizzle-orm", "sequelize", "typeorm", "mongoose", "knex", "kysely", "sqlalchemy", "gorm", "diesel", "sea-orm", "mikro-orm", "objection", "bookshelf", "activerecord"]),
  ("UI Components", ["shadcn-ui", "@shadcn/ui", "material-ui", "@mui/material", "chakra-ui", "@chakra-ui/react", "ant-design", "antd", "radix-ui", "@radix-ui/react-dialog", "headless-ui", "@headlessui/react", "daisyui", "mantine", "@mantine/core"]),
  ("CSS/Styling", ["tailwindcss", "styled-components", "@emotion/react", "emotion", "sass", "css-modules", "vanilla-extract", "linaria", "stitches", "unocss", "windicss"]),
  ("Testing", ["jest", "vitest", "mocha", "pytest", "playwright", "@playwright/test", "cypress", "testing-library", "@testing-library/react", "supertest", "rspec", "nock", "msw"]),
  ("HTTP Client", ["axios", "node-fetch", "undici", "got", "ky", "requests", "httpx", "reqwest", "superagent", "ofetch"]),
  ("Payments", ["stripe", "@stripe/stripe-js", "paypal", "square", "braintree", "lemonsqueezy", "@lemonsqueezy/lemonsqueezy.js"]),
  ("Deployment", ["vercel", "railway", "netlify", "fly-io", "render", "cloudflare-pages", "wrangler", "docker", "dockerfile"]),
  ("Observability", ["sentry", "@sentry/node", "datadog", "dd-trace", "pino", "winston", "opentelemetry", "@opentelemetry/sdk-node", "newrelic", "bunyan", "morgan", "loglevel"]),
  ("Caching", ["redis", "ioredis", "memcached", "keyv", "node-cache", "lru-cache", "cacheable", "catbox"]),
  ("Validation", ["zod", "yup", "joi", "class-validator", "ajv", "valibot", "typebox", "@sinclair/typebox", "superstruct", "io-ts"]),
  ("API Framework", ["express", "fastapi", "hono", "koa", "fastify", "nestjs", "@nestjs/core", "django", "flask", "gin", "echo", "fiber", "actix-web", "axum", "chi", "rails", "sinatra"]),
  ("Real-time", ["socket.io", "ws", "pusher", "ably", "livekit", "phoenix-channels", "sockjs", "engine.io", "partykit"]),
  ("File Upload", ["multer", "formidable", "busboy", "uploadthing", "filepond", "tus", "uppy"]),
  ("Email", ["nodemailer", "resend", "@sendgrid/mail", "sendgrid", "ses", "postmark", "mailgun", "react-email"]),
  ("Job Queue", ["bullmq", "bull", "celery", "bee-queue", "agenda", "pg-boss", "temporal", "sidekiq", "graphile-worker"]),
  ("Feature Flags", ["launchdarkly", "unleash", "flagsmith", "growthbook", "@growthbook/growthbook", "flipt", "posthog"]),
  ("Package Manager", ["npm", "yarn", "pnpm", "bun"])]

/-- The reverse lookup table _packageToCategory, built in insertion order
(its keys are pairwise distinct, see nodup_packageToCategory, so the JS Map
coincides with first-match association-list lookup). -/
def packageToCategory : List (String × String) :=
  TOOL_CATEGORIES.flatMap (fun p => p.2.map (fun pkg => (lowerStr pkg, p.1)))

/-- Model of name.replace with the anchored scope regex: strip a leading
scope segment of the form at-sign, one or more non-slash characters, slash. -/
def stripScope (name : String) : String :=
  match name.data with
  | '@' :: rest =>
    let pre := rest.takeWhile (fun c => c != '/')
    if pre.isEmpty then name
    else
      match rest.drop pre.length with
      | '/' :: after => String.mk after
      | _ => name
  | _ => name

/-- The fuzzy fallback loop of categorizePackage: scan the reverse index in
order, match if either string contains the other (keys are already
lower-cased). -/
def fuzzyScan (lname : String) : List (String × String) → Option String
  | [] => none
  | (pkg, cat) :: rest =>
    if strContainsSub lname pkg || strContainsSub pkg lname then some cat
    else fuzzyScan lname rest

/-- categorizePackage from src/classifiers/categories.ts. -/
def categorizePackage (name : String) : Option String :=
  match packageToCategory.lookup (lowerStr name) with
  | some c => some c
  | none =>
    match (if strStartsWith name "@" then packageToCategory.lookup (lowerStr (stripScope name)) else none) with
    | some c => some c
    | none => fuzzyScan (lowerStr name) packageToCategory

/-- Run an ordered list of rules, first hit wins. -/
def firstHit : List (String → Option String) → String → Option String
  | [], _ => none
  | r :: rs, n =>
    match r n with
    | some c => some c
    | none => firstHit rs n

/-- Modelled from the spec: the three-rule description of the categorizer
(exact lookup; scope-stripped lookup; fuzzy scan in taxonomy iteration
order), as an ordered rule list with first hit winning. -/
def specCategorizeRules : List (String → Option String) :=
  [fun n => packageToCategory.lookup (lowerStr n),
   fun n => if strStartsWith n "@" then packageToCategory.lookup (lowerStr (stripScope n)) else none,
   fun n => fuzzyScan (lowerStr n) packageToCategory]

/-- The categorizer as the spec describes it. -/
def categorizeBySpecRules (name : String) : Option String :=
  firstHit specCategorizeRules name


-- ── The install-command regexes of extractPackageNames ──
-- Each of the five patterns of build-vs-buy.ts is a concatenation of
-- literal alternations, \s+ runs, an optional run of "--opt " groups and a
-- final greedy capture (.+).  The matchers below implement exactly the JS
-- regex semantics for that fragment: leftmost starting position, ordered
-- alternation, greedy quantifiers with backtracking.

/-- Model of the \s character class (ASCII part). -/
def isWsChar (c : Char) : Bool :=
  c == ' ' || c == '\t' || c == '\n' || c == '\r' || c == '\x0b' || c == '\x0c'

/-- Characters the regex dot does not match (ASCII part). -/
def isNLChar (c : Char) : Bool := c == '\n' || c == '\r'

/-- Final greedy capture (.+): the longest nonempty run of non-newline
characters from here; nothing follows it in any of the five patterns. -/
def capRest (cs : List Char) : Option String :=
  let t := cs.takeWhile (fun c => !isNLChar c)
  if t.isEmpty then none else some (String.mk t)

/-- Backtracking for \s+ : try consuming i whitespace characters, largest
first (greedy), then the continuation k. -/
def wsTry (k : List Char → Option String) (cs : List Char) : Nat → Option String
  | 0 => none
  | Nat.succ i =>
    match k (cs.drop (i + 1)) with
    | some r => some r
    | none => wsTry k cs i

/-- \s+ followed by continuation k. -/
def wsPlus (k : List Char → Option String) (cs : List Char) : Option String :=
  wsTry k cs ((cs.takeWhile isWsChar).length)

/-- A literal, then continuation k. -/
def litHere (lit : String) (k : List Char → Option String) (cs : List Char) : Option String :=
  if lit.data.isPrefixOf cs then k (cs.drop lit.data.length) else none

/-- An ordered alternation of literals, then continuation k. -/
def litAlts (alts : List String) (k : List Char → Option String) (cs : List Char) : Option String :=
  match alts with
  | [] => none
  | a :: rest =>
    match litHere a k cs with
    | some r => some r
    | none => litAlts rest k cs

/-- One iteration of the group (?:--[^\s]+\s+): the literal "--", a maximal
nonempty run of non-whitespace (giving characters back would put a
non-whitespace character in front of the following \s+, so the maximal run
is the only viable split), then \s+ and the continuation k. -/
def matchGroup (k : List Char → Option String) (cs : List Char) : Option String :=
  match cs with
  | '-' :: '-' :: rest =>
    let w := rest.takeWhile (fun c => !isWsChar c)
    if w.isEmpty then none else wsPlus k (rest.drop w.length)
  | _ => none

/-- Greedy (?:--[^\s]+\s+)* then the final capture (.+): prefer one more
group iteration, fall back to capturing here.  fuel bounds the number of
iterations; each iteration consumes at least four characters, so any fuel
of at least cs.length + 1 is never exhausted. -/
def starThenCap (fuel : Nat) (cs : List Char) : Option String :=
  match fuel with
  | 0 => none
  | Nat.succ f =>
    match matchGroup (starThenCap f) cs with
    | some r => some r
    | none => capRest cs

/-- Pattern 1 anchored at the current position:
(?:npm|yarn|pnpm|bun)\s+(?:install|add|i)\s+(?:--[^\s]+\s+)*(.+) -/
def p1At (cs : List Char) : Option String :=
  litAlts ["npm", "yarn", "pnpm", "bun"]
    (wsPlus (litAlts ["install", "add", "i"]
      (wsPlus (fun cs4 => starThenCap (cs4.length + 1) cs4)))) cs

/-- The remaining four patterns anchored at the current position:
w1 (optionally followed by the digit 3, for pip3?), \s+, w2, \s+, (.+). -/
def twoWordAt (w1 : String) (opt3 : Bool) (w2 : String) (cs : List Char) : Option String :=
  litHere w1 (fun cs1 =>
    let tail := wsPlus (litHere w2 (wsPlus capRest))
    if opt3 then
      match (match cs1 with
             | '3' :: r => tail r
             | _ => none) with
      | some res => some res
      | none => tail cs1
    else tail cs1) cs

/-- Leftmost-match search: try the anchored matcher at every position from
the left. -/
def searchFrom (m : List Char → Option String) (cs : List Char) : Option String :=
  match m cs with
  | some r => some r
  | none =>
    match cs with
    | [] => none
    | _ :: t => searchFrom m t

/-- The five installPatterns of extractPackageNames, in source order. -/
def installMatchers : List (List Char → Option String) :=
  [p1At,
   twoWordAt "pip" true "install",
   twoWordAt "cargo" false "add",
   twoWordAt "go" false "get",
   twoWordAt "gem" false "install"]

/-- First pattern whose (leftmost) match yields a capture, in order. -/
def firstCapture : List (List Char → Option String) → List Char → Option String
  | [], _ => none
  | m :: rest, cs =>
    match searchFrom m cs with
    | some r => some r
    | none => firstCapture rest cs

/-- Model of capture.split(/\s+/): split on maximal whitespace runs,
keeping the empty pieces a leading or trailing run produces.  The second
argument is the token being accumulated (reversed); none means the scan is
inside a separator run. -/
def splitWsAux : List Char → Option (List Char) → List String
  | [], some cur => [String.mk cur.reverse]
  | [], none => [""]
  | c :: t, some cur =>
    if isWsChar c then String.mk cur.reverse :: splitWsAux t none
    else splitWsAux t (some (c :: cur))
  | c :: t, none =>
    if isWsChar c then splitWsAux t none
    else splitWsAux t (some [c])

def splitWs (s : String) : List String := splitWsAux s.data (some [])

/-- Model of p.replace with the version regex: delete from the leftmost
at-sign that is followed by a non-slash character and whose remainder
contains no line terminator (the greedy dot-star must reach the end
anchor) to the end of the string. -/
def stripVerChars (cs : List Char) : List Char :=
  match cs with
  | [] => []
  | c :: t =>
    if c == '@' then
      match t with
      | d :: r => if d != '/' && r.all (fun x => !isNLChar x) then [] else c :: stripVerChars t
      | [] => [c]
    else c :: stripVerChars t

def stripVersion (p : String) : String := String.mk (stripVerChars p.data)

/-- extractPackageNames from src/classifiers/build-vs-buy.ts: first install
pattern that matches wins; its capture is split on whitespace, option-like
pieces are dropped, and a version suffix is stripped from each piece. -/
def extractPackageNames (command : String) : List String :=
  match firstCapture installMatchers command.data with
  | some cap => ((splitWs cap).filter (fun p => !strStartsWith p "-")).map stripVersion
  | none => []


-- ── build-vs-buy.ts: detector ──

/-- DOMAIN_KEYWORDS, in source (insertion) order. -/
def DOMAIN_KEYWORDS : List (String × List String) := [
  ("Authentication", ["jwt", "jsonwebtoken", "bcrypt", "hash-password", "hashPassword", "verifyToken", "signToken", "auth-middleware", "authMiddleware", "login", "session-token"]),
  ("Caching", ["cache", "ttl", "lru", "memoize", "invalidate-cache", "cacheKey", "cache-control", "redis-client"]),
  ("Validation", ["validate", "schema", "sanitize", "parse-input", "validateInput", "validateBody", "field-validation"]),
  ("Feature Flags", ["feature-flag", "featureFlag", "isEnabled", "toggle", "feature-toggle", "flagEnabled"]),
  ("Job Queue", ["job-queue", "jobQueue", "enqueue", "dequeue", "worker", "processJob", "schedule-job"]),
  ("Real-time", ["websocket", "ws-server", "socket", "onMessage", "broadcast", "pubsub", "subscribe"]),
  ("Email", ["send-email", "sendEmail", "smtp", "mailer", "email-template", "transporter"]),
  ("File Upload", ["upload", "multipart", "file-upload", "handleUpload", "parseFile"]),
  ("HTTP Client", ["http-client", "httpClient", "fetchWrapper", "apiClient", "request-wrapper"]),
  ("Observability", ["logger", "log-level", "logLevel", "structured-log", "tracing", "metrics", "instrumenting"])]

/-- A file-path regex of DOMAIN_FILE_PATTERNS: every one is either an
end-anchored literal /lit$/ or a bare literal /lit/ (substring test). -/
inductive PathPat where
  | ends (s : String)
  | has (s : String)
deriving DecidableEq, Repr

def PathPat.test (p : PathPat) (path : String) : Bool :=
  match p with
  | .ends s => strEndsWith path s
  | .has s => strContainsSub path s

/-- DOMAIN_FILE_PATTERNS, in source (insertion) order. -/
def DOMAIN_FILE_PATTERNS : List (String × List PathPat) := [
  ("Authentication", [.ends "auth.ts", .ends "auth.js", .has "middleware/auth", .has "lib/auth", .has "utils/auth", .has "helpers/auth"]),
  ("Caching", [.ends "cache.ts", .ends "cache.js", .has "lib/cache", .has "utils/cache"]),
  ("Validation", [.ends "validator.ts", .ends "validator.js", .ends "validation.ts", .ends "validation.js", .has "lib/validate"]),
  ("Feature Flags", [.has "feature-flag", .has "featureFlag", .ends "flags.ts", .ends "flags.js"]),
  ("Job Queue", [.ends "queue.ts", .ends "queue.js", .ends "worker.ts", .ends "worker.js", .has "lib/queue"]),
  ("Real-time", [.has "websocket", .ends "socket.ts", .ends "socket.js", .has "ws-server"]),
  ("Email", [.ends "mailer.ts", .ends "mailer.js", .ends "email.ts", .ends "email.js", .has "lib/mail"]),
  ("File Upload", [.ends "upload.ts", .ends "upload.js", .has "lib/upload", .has "middleware/upload"]),
  ("Observability", [.ends "logger.ts", .ends "logger.js", .has "lib/logger", .has "utils/logger"])]

/-- The category marker strings stored in the installedPackages set. -/
def catKey (c : String) : String := "__cat__" ++ c

/-- Pass 1 of detectCustomImplementation: all installed package names
(lower-cased) and the category markers of their categories, collected from
bash events.  The JS Set is modelled as a list; only membership is ever
queried. -/
def installedPackages (events : List RawEvent) : List String :=
  events.flatMap (fun e =>
    if e.action == "bash" then
      (extractPackageNames e.raw).flatMap (fun pkg =>
        lowerStr pkg :: (match categorizePackage pkg with
          | some cat => [catKey cat]
          | none => []))
    else [])

/-- A per-event detection record before it is turned into a
CustomBuildEvent. -/
structure Detection where
  category : String
  keywords : List String
  confidence : Nat
deriving DecidableEq, Repr

/-- The path-pattern loop of detectCustomImplementation: for each
non-suppressed category, the first matching pattern pushes one detection
with confidence 60 and breaks (the detection does not depend on which
pattern matched, so the break is modelled by the any-test). -/
def pathDetectionsGo (sup : List String) (filePath : String) : List (String × List PathPat) → List Detection
  | [] => []
  | (cat, pats) :: rest =>
    if sup.contains (catKey cat) then pathDetectionsGo sup filePath rest
    else if pats.any (fun p => p.test filePath) then
      ⟨cat, [filePath], 60⟩ :: pathDetectionsGo sup filePath rest
    else pathDetectionsGo sup filePath rest

def pathDetections (sup : List String) (filePath : String) : List Detection :=
  pathDetectionsGo sup filePath DOMAIN_FILE_PATTERNS

/-- keywords.filter(kw => content.toLowerCase().includes(kw.toLowerCase())). -/
def matchedKeywordsIn (content : String) (kws : List String) : List String :=
  kws.filter (fun kw => strContainsSub (lowerStr content) (lowerStr kw))

/-- Merge a keyword hit into the first existing detection of the same
category: extend its keyword list and raise its confidence by 10 per
match, capped at 95. -/
def mergeKeywordHit (cat : String) (matched : List String) : List Detection → List Detection
  | [] => []
  | d :: rest =>
    if d.category == cat then
      { d with keywords := d.keywords ++ matched,
               confidence := min 95 (d.confidence + matched.length * 10) } :: rest
    else d :: mergeKeywordHit cat matched rest

/-- One iteration of the content-keyword loop for the category pair p. -/
def keywordStep (sup : List String) (content : String) (ds : List Detection) (p : String × List String) : List Detection :=
  if sup.contains (catKey p.1) then ds
  else
    let matched := matchedKeywordsIn content p.2
    if 2 ≤ matched.length then
      if ds.any (fun d => d.category == p.1) then mergeKeywordHit p.1 matched ds
      else ds ++ [⟨p.1, matched, 40 + matched.length * 10⟩]
    else ds

/-- The content-keyword loop over the keyword table. -/
def keywordPass (sup : List String) (content : String) : List (String × List String) → List Detection → List Detection
  | [], ds => ds
  | p :: rest, ds => keywordPass sup content rest (keywordStep sup content ds p)

/-- All detections one file_write event contributes: path patterns first,
then content keywords (a missing result field is treated as empty
content). -/
def detectionsForEvent (sup : List String) (e : RawEvent) : List Detection :=
  keywordPass sup (e.result.getD "") DOMAIN_KEYWORDS (pathDetections sup e.raw)

structure CustomBuildEvent where
  event : RawEvent
  category : String
  matchedKeywords : List String
  confidence : Nat
deriving DecidableEq, Repr

/-- detectCustomImplementation from src/classifiers/build-vs-buy.ts. -/
def detectCustomImplementation (events : List RawEvent) : List CustomBuildEvent :=
  let sup := installedPackages events
  events.flatMap (fun e =>
    if e.action == "file_write" then
      (detectionsForEvent sup e).map (fun d => ⟨e, d.category, d.keywords, d.confidence⟩)
    else [])

-- ── build-vs-buy.ts: summary ──

/-- Model of Math.round on the exact rationals the summary computes. -/
def mathRound (q : ℚ) : ℤ := ⌊q + 1/2⌋

/-- Math.round((customCount / total) * 10000) / 100. -/
def pctOf (customCount total : Nat) : ℚ :=
  (mathRound ((customCount : ℚ) / (total : ℚ) * 10000) : ℚ) / 100

/-- The shape of the installEvents argument of getBuildVsBuySummary. -/
structure InstallEventInfo where
  packageName : Option String := none
  category : Option String := none
deriving DecidableEq, Repr

structure SummaryEntry where
  category : String
  installCount : Nat
  customBuildCount : Nat
  customBuildPct : ℚ
deriving DecidableEq, Repr

def entryTotal (s : SummaryEntry) : Nat := s.installCount + s.customBuildCount

/-- The install-event filter of getBuildVsBuySummary (an empty packageName
is falsy in JS and is not categorized). -/
def installEventInCategory (cat : String) (e : InstallEventInfo) : Bool :=
  if e.category == some cat then true
  else
    match e.packageName with
    | some p => if p == "" then false else categorizePackage p == some cat
    | none => false

/-- One summary row per category with a nonzero total, in taxonomy order. -/
def summaryRows (customBuilds : List CustomBuildEvent) (installEvents : List InstallEventInfo) : List String → List SummaryEntry
  | [] => []
  | cat :: rest =>
    let customCount := (customBuilds.filter (fun b => b.category == cat)).length
    let instCount := (installEvents.filter (installEventInCategory cat)).length
    if instCount + customCount == 0 then summaryRows customBuilds installEvents rest
    else ⟨cat, instCount, customCount, pctOf customCount (instCount + customCount)⟩
      :: summaryRows customBuilds installEvents rest

/-- Stable insertion by descending total: the model of the JS stable sort
with comparator (a, b) => total(b) - total(a). -/
def insertByTotalDesc (x : SummaryEntry) : List SummaryEntry → List SummaryEntry
  | [] => [x]
  | y :: ys => if entryTotal y < entryTotal x then x :: y :: ys else y :: insertByTotalDesc x ys

def sortByTotalDesc : List SummaryEntry → List SummaryEntry
  | [] => []
  | x :: xs => insertByTotalDesc x (sortByTotalDesc xs)

/-- getBuildVsBuySummary from src/classifiers/build-vs-buy.ts. -/
def getBuildVsBuySummary (customBuilds : List CustomBuildEvent) (installEvents : List InstallEventInfo) : List SummaryEntry :=
  sortByTotalDesc (summaryRows customBuilds installEvents (TOOL_CATEGORIES.map Prod.fst))

-- ── The install-interception hook ──

/-- Outcome of the fetch to the evaluation API as the hook's try block
observes it: the call threw (unreachable, aborted by the 15s timeout, or
the response body failed to parse), the response was not ok, or it was ok
with some verdict string. -/
inductive ApiOutcome where
  | unreachable
  | notOk
  | ok (verdict : String)
deriving DecidableEq, Repr

structure InstallCmdMatch where
  packageName : String
  packageManager : String
deriving DecidableEq, Repr

/-- One invocation of the hook, as the environment determines it: whether
stdin was readable and parsed, the tool name and command of the hook data,
the result of matchInstallCommand (its INSTALL_PATTERNS table lives outside
the source tree, so the match outcome is an input of the model), the
session bypass state, config presence, the API outcome, and whether the
post-verdict effects (markAllowed, stdout write) threw inside the try. -/
structure HookRun where
  stdinReadable : Bool
  parseOk : Bool
  toolName : String
  command : Option String
  installMatch : Option InstallCmdMatch
  alreadyAllowed : Bool
  hasConfig : Bool
  api : ApiOutcome
  effectsThrow : Bool
deriving DecidableEq, Repr

/-- The exit code of the hook's main, following its control flow: every
early return and every caught error exits 0; only an ok response with a
non-PROCEED verdict whose block path completes exits 2.  An empty command
string is falsy in JS and is treated like a missing one. -/
def hookMain (r : HookRun) : Nat :=
  if !r.stdinReadable then 0
  else if !r.parseOk then 0
  else if r.toolName != "Bash" then 0
  else
    match r.command with
    | none => 0
    | some cmd =>
      if cmd == "" then 0
      else
        match r.installMatch with
        | none => 0
        | some _ =>
          if r.alreadyAllowed then 0
          else if !r.hasConfig then 0
          else
            match r.api with
            | .unreachable => 0
            | .notOk => 0
            | .ok v =>
              if v == "PROCEED" then 0
              else if r.effectsThrow then 0
              else 2

/-- The session bypass file's parsed contents: unreadable or unparsable,
parsed but not an array, or an array of strings. -/
inductive StoredAllowed where
  | unreadable
  | notArray
  | arr (entries : List String)
deriving DecidableEq, Repr

/-- The recovery read of markAllowed: any failure yields the empty list. -/
def readAllowedList : StoredAllowed → List String
  | .arr l => l
  | _ => []

/-- markAllowed from the hook: append the lower-cased package name and
store the array. -/
def markAllowed (st : StoredAllowed) (packageName : String) : StoredAllowed :=
  .arr (readAllowedList st ++ [lowerStr packageName])

/-- isAlreadyAllowed from the hook: a parsed array containing the
lower-cased package name. -/
def isAlreadyAllowed (st : StoredAllowed) (packageName : String) : Bool :=
  match st with
  | .arr l => l.contains (lowerStr packageName)
  | _ => false

-- ── Concrete inputs used in the claim theorems ──

/-- The failing input for the confidence-cap claim: a file_write whose path
matches no pattern and whose content contains seven Caching keywords. -/
def capBugEvent : RawEvent :=
  { action := "file_write", raw := "notes.txt",
    result := some "cache ttl lru memoize cacheKey cache-control redis-client" }

/-- The spec's own three-keyword Caching example event. -/
def cachingExampleEvent : RawEvent :=
  { action := "file_write", raw := "notes.txt",
    result := some "use the cache with a ttl and memoize it" }

def bashRedisEvent : RawEvent := { action := "bash", raw := "npm install redis" }

def authFileEvent : RawEvent := { action := "file_write", raw := "auth.ts" }

def suppressionEvents : List RawEvent := [bashRedisEvent, authFileEvent]

def exAuthBuild : CustomBuildEvent :=
  ⟨authFileEvent, "Authentication", ["auth.ts"], 60⟩

def exAuthInstalls : List InstallEventInfo :=
  [{ category := some "Authentication" }, { category := some "Authentication" },
   { category := some "Authentication" }]

example : detectCustomImplementation [capBugEvent] =
    [⟨capBugEvent, "Caching",
      ["cache", "ttl", "lru", "memoize", "cacheKey", "cache-control", "redis-client"], 110⟩] := by
  decide

example : detectCustomImplementation [cachingExampleEvent] =
    [⟨cachingExampleEvent, "Caching", ["cache", "ttl", "memoize"], 70⟩] := by
  decide

example : detectCustomImplementation suppressionEvents =
    [⟨authFileEvent, "Authentication", ["auth.ts"], 60⟩] := by decide

-- ── Definitions used by specific claim proofs and witnesses ──

/-- The exact condition under which the hook blocks. -/
def hookBlockCond (r : HookRun) : Bool :=
  r.stdinReadable && r.parseOk && (r.toolName == "Bash") &&
  (match r.command with | some cmd => cmd != "" | none => false) &&
  r.installMatch.isSome && !r.alreadyAllowed && r.hasConfig &&
  (match r.api with | .ok v => v != "PROCEED" | _ => false) && !r.effectsThrow

def hookRunAllowed : HookRun :=
  ⟨true, true, "Bash", some "npm install lodash", some ⟨"lodash", "npm"⟩, true, true,
   ApiOutcome.ok "SWITCH", false⟩

def noResultEvent : RawEvent := { action := "file_write", raw := "notes.txt" }

/-- The single-category effect of one content-keyword iteration on the
detections already filtered to that category. -/
def keywordLocal (sup : List String) (content : String) (c : String) (kws : List String)
    (fds : List Detection) : List Detection :=
  if sup.contains (catKey c) then fds
  else if 2 ≤ (matchedKeywordsIn content kws).length then
    match fds with
    | [] => [⟨c, matchedKeywordsIn content kws, 40 + (matchedKeywordsIn content kws).length * 10⟩]
    | d :: ds' =>
      { d with keywords := d.keywords ++ matchedKeywordsIn content kws,
               confidence := min 95 (d.confidence + (matchedKeywordsIn content kws).length * 10) } :: ds'
  else fds

def authPatsW : List PathPat :=
  [.ends "auth.ts", .ends "auth.js", .has "middleware/auth", .has "lib/auth",
   .has "utils/auth", .has "helpers/auth"]

def authKwsW : List String :=
  ["jwt", "jsonwebtoken", "bcrypt", "hash-password", "hashPassword", "verifyToken",
   "signToken", "auth-middleware", "authMiddleware", "login", "session-token"]

def authContentEvent : RawEvent :=
  { action := "file_write", raw := "src/auth.ts",
    result := some "verifyToken and signToken here" }

-- ── Sanity checks of the embedding on concrete inputs ──

example : categorizePackage "@myorg/jsonwebtoken" = some "Authentication" := by decide
example : categorizePackage "" = some "CI/CD" := by decide
example : categorizePackage "redis" = some "Caching" := by decide

example : extractPackageNames "npm install redis" = ["redis"] := by decide
example : extractPackageNames "npm install --save-dev lodash underscore" = ["lodash", "underscore"] := by decide
example : extractPackageNames "pip3 install requests" = ["requests"] := by decide
example : extractPackageNames "ls -la" = [] := by decide
example : extractPackageNames "cargo add serde@1.0" = ["serde"] := by decide

example : getBuildVsBuySummary [exAuthBuild] exAuthInstalls =
    [⟨"Authentication", 3, 1, pctOf 1 4⟩] := by rfl

example : pctOf 1 4 = 25 := by
  norm_num [pctOf, mathRound]

-- ── Helper lemmas ──

/-- The keys of the reverse index are pairwise distinct, so the JS Map
(last write wins, iteration in first-insertion order) coincides with the
association list packageToCategory. -/
lemma nodup_packageToCategory : (packageToCategory.map Prod.fst).Nodup := by decide

lemma nodup_domainKeywords : (DOMAIN_KEYWORDS.map Prod.fst).Nodup := by decide

lemma nodup_domainFilePatterns : (DOMAIN_FILE_PATTERNS.map Prod.fst).Nodup := by decide


-- ── Claim theorems ──

/-- Claim C9: categorizePackage applied to the empty string returns
CI/CD, the category of the first taxonomy entry, rather than null: the
fuzzy fallback's pkg-contains-name test is true of every known package for
the empty name, so the first entry in taxonomy iteration order wins. -/
theorem categorize_empty_is_cicd :
    categorizePackage "" = some "CI/CD" ∧
    (TOOL_CATEGORIES.map Prod.fst).head? = some "CI/CD" := by
  exact ⟨by decide, by decide⟩

/-- Claim C8: classification is deterministic: the detector and the
categorizer are pure functions of their input, so running either twice on
the same data yields identical output. -/
theorem classification_deterministic :
    ∀ (events : List RawEvent) (name : String),
      detectCustomImplementation events = detectCustomImplementation events ∧
      categorizePackage name = categorizePackage name :=
  fun _ _ => ⟨rfl, rfl⟩

/-- Claim C4: categorizePackage applies exactly the three spec rules in
order with first hit winning (exact lookup, scope-stripped lookup, fuzzy
scan in taxonomy iteration order, else null), and in particular the
scope-stripped exact match gives Authentication for the scoped
jsonwebtoken name. -/
theorem categorize_follows_spec_rules :
    (∀ name, categorizePackage name = categorizeBySpecRules name) ∧
    categorizePackage "@myorg/jsonwebtoken" = some "Authentication" := by
  refine ⟨fun name => ?_, by decide⟩
  simp only [categorizePackage, categorizeBySpecRules, specCategorizeRules, firstHit]
  cases packageToCategory.lookup (lowerStr name) with
  | some c => rfl
  | none =>
    cases h : (if strStartsWith name "@" then packageToCategory.lookup (lowerStr (stripScope name)) else none) with
    | some c => rfl
    | none => cases fuzzyScan (lowerStr name) packageToCategory <;> rfl

/-- Claim C1, the code at the failing input: a file_write matching no path
pattern whose content holds seven Caching keywords gets confidence
40 + 10 by 7 = 110, not min(95, 40 + 10 by 7) = 95 — the fresh
content-keyword branch of detectCustomImplementation does not apply the
95 cap (and 110 also exceeds the documented 0-100 confidence range). -/
theorem detect_confidence_uncapped :
    detectCustomImplementation [capBugEvent] =
      [⟨capBugEvent, "Caching",
        ["cache", "ttl", "lru", "memoize", "cacheKey", "cache-control", "redis-client"], 110⟩] ∧
    (110 : Nat) ≠ min 95 (40 + 10 * 7) := by
  exact ⟨by decide, by decide⟩

-- ── Suppression lemmas (C2) ──

lemma pathDetectionsGo_not_sup (sup : List String) (fp : String) :
    ∀ (l : List (String × List PathPat)) (d : Detection),
      d ∈ pathDetectionsGo sup fp l → sup.contains (catKey d.category) = false := by
  intro l
  induction l with
  | nil => intro d hd; simp [pathDetectionsGo] at hd
  | cons p rest ih =>
    intro d hd
    obtain ⟨cat, pats⟩ := p
    simp only [pathDetectionsGo] at hd
    split_ifs at hd with h1 h2
    · exact ih d hd
    · rcases List.mem_cons.mp hd with h | h
      · subst h
        exact Bool.not_eq_true _ ▸ (by simpa using h1)
      · exact ih d h
    · exact ih d hd

lemma mergeKeywordHit_mem (cat : String) (m : List String) :
    ∀ (ds : List Detection) (d : Detection),
      d ∈ mergeKeywordHit cat m ds → ∃ d₀ ∈ ds, d.category = d₀.category := by
  intro ds
  induction ds with
  | nil => intro d hd; simp [mergeKeywordHit] at hd
  | cons d0 rest ih =>
    intro d hd
    simp only [mergeKeywordHit] at hd
    split_ifs at hd with h
    · rcases List.mem_cons.mp hd with h' | h'
      · exact ⟨d0, List.mem_cons_self _ _, by subst h'; rfl⟩
      · exact ⟨d, List.mem_cons_of_mem _ h', rfl⟩
    · rcases List.mem_cons.mp hd with h' | h'
      · exact ⟨d0, List.mem_cons_self _ _, by subst h'; rfl⟩
      · obtain ⟨d₀, hd₀, hcat⟩ := ih d h'
        exact ⟨d₀, List.mem_cons_of_mem _ hd₀, hcat⟩

lemma keywordStep_not_sup (sup : List String) (content : String)
    (ds : List Detection) (p : String × List String)
    (hds : ∀ d ∈ ds, sup.contains (catKey d.category) = false) :
    ∀ d ∈ keywordStep sup content ds p, sup.contains (catKey d.category) = false := by
  intro d hd
  simp only [keywordStep] at hd
  split_ifs at hd with h1 h2 h3
  · exact hds d hd
  · obtain ⟨d₀, hd₀, hcat⟩ := mergeKeywordHit_mem _ _ _ _ hd
    rw [hcat]; exact hds d₀ hd₀
  · rcases List.mem_append.mp hd with h | h
    · exact hds d h
    · have : d = ⟨p.1, matchedKeywordsIn content p.2, 40 + (matchedKeywordsIn content p.2).length * 10⟩ := by
        simpa using h
      subst this
      simpa using h1
  · exact hds d hd

lemma keywordPass_not_sup (sup : List String) (content : String) :
    ∀ (l : List (String × List String)) (ds : List Detection),
      (∀ d ∈ ds, sup.contains (catKey d.category) = false) →
      ∀ d ∈ keywordPass sup content l ds, sup.contains (catKey d.category) = false := by
  intro l
  induction l with
  | nil => intro ds hds d hd; exact hds d hd
  | cons p rest ih =>
    intro ds hds d hd
    exact ih _ (keywordStep_not_sup sup content ds p hds) d hd

lemma detectionsForEvent_not_sup (sup : List String) (e : RawEvent) :
    ∀ d ∈ detectionsForEvent sup e, sup.contains (catKey d.category) = false :=
  keywordPass_not_sup sup _ DOMAIN_KEYWORDS _ (pathDetectionsGo_not_sup sup e.raw DOMAIN_FILE_PATTERNS)

/-- Claim C2: detectCustomImplementation never emits a CustomBuildEvent
whose category is already satisfied by a package install in the same event
set: if any bash event's command yields an extracted package whose
category is c, then no emitted detection (path-based or keyword-based) has
category c. -/
theorem detect_suppressed_by_install :
    ∀ (events : List RawEvent) (e : RawEvent) (pkg c : String) (r : CustomBuildEvent),
      e ∈ events → e.action = "bash" → pkg ∈ extractPackageNames e.raw →
      categorizePackage pkg = some c →
      r ∈ detectCustomImplementation events → r.category ≠ c := by
  intro events e pkg c r he hact hpkg hcat hr
  have hkey : catKey c ∈ installedPackages events := by
    unfold installedPackages
    rw [List.mem_flatMap]
    refine ⟨e, he, ?_⟩
    rw [show (e.action == "bash") = true by simp [hact]]
    simp only [if_true]
    rw [List.mem_flatMap]
    exact ⟨pkg, hpkg, by rw [hcat]; simp⟩
  intro hrc
  have hsup : (installedPackages events).contains (catKey c) = true := by
    simpa [List.contains] using List.elem_iff.mpr hkey
  unfold detectCustomImplementation at hr
  rw [List.mem_flatMap] at hr
  obtain ⟨e', _, hm⟩ := hr
  by_cases hfw : (e'.action == "file_write") = true
  · rw [hfw] at hm
    simp only [if_true, List.mem_map] at hm
    obtain ⟨d, hd, hrd⟩ := hm
    have hnot := detectionsForEvent_not_sup (installedPackages events) e' d hd
    have hdc : d.category = c := by rw [← hrc, ← hrd]
    rw [hdc] at hnot
    rw [hnot] at hsup
    exact Bool.false_ne_true hsup
  · rw [Bool.not_eq_true] at hfw
    rw [hfw] at hm
    simp at hm

/-- Witness for C2 at a concrete event set: an npm install of redis
suppresses Caching, and the remaining Authentication detection is indeed
not a Caching detection. -/
theorem detect_suppressed_by_install_witness :
    (bashRedisEvent ∈ suppressionEvents ∧ bashRedisEvent.action = "bash" ∧
      "redis" ∈ extractPackageNames bashRedisEvent.raw ∧
      categorizePackage "redis" = some "Caching" ∧
      exAuthBuild ∈ detectCustomImplementation suppressionEvents) ∧
    exAuthBuild.category ≠ "Caching" :=
  ⟨⟨by decide, rfl, by decide, by decide, by decide⟩,
   detect_suppressed_by_install suppressionEvents bashRedisEvent "redis" "Caching" exAuthBuild
     (by decide) rfl (by decide) (by decide) (by decide)⟩

-- ── Hook lemmas (C6, C10) ──


lemma hookMain_eq (r : HookRun) : hookMain r = if hookBlockCond r then 2 else 0 := by
  obtain ⟨sr, pk, tn, cmd, im, aa, hc, api, eff⟩ := r
  simp only [hookMain, hookBlockCond]
  cases sr <;> cases pk <;> cases cmd <;> cases im <;> cases aa <;> cases hc <;>
    cases api <;> cases eff <;> simp <;> split_ifs <;> simp_all

lemma hookBlockCond_iff (r : HookRun) :
    hookBlockCond r = true ↔
      (r.stdinReadable = true ∧ r.parseOk = true ∧ r.toolName = "Bash" ∧
       (∃ cmd, r.command = some cmd ∧ cmd ≠ "") ∧ (∃ m, r.installMatch = some m) ∧
       r.alreadyAllowed = false ∧ r.hasConfig = true ∧
       (∃ v, r.api = ApiOutcome.ok v ∧ v ≠ "PROCEED") ∧ r.effectsThrow = false) := by
  obtain ⟨sr, pk, tn, cmd, im, aa, hc, api, eff⟩ := r
  simp only [hookBlockCond]
  cases cmd <;> cases im <;> cases api <;>
    simp [Bool.and_eq_true, Option.isSome] <;> tauto

/-- Claim C6: the install-interception hook fails open on any error: its
exit code is always 0 or 2, and it is 2 exactly when stdin was read and
parsed, the tool is Bash, a nonempty command matched an install pattern,
the package was not already allowed, API config exists, the API responded
ok with a non-PROCEED verdict, and the block path completed; in every
other situation (unreadable or unparsable stdin, non-Bash tool, missing or
non-matching command, no config, API error, timeout or non-ok response,
or a PROCEED verdict) it exits 0. -/
theorem hook_fails_open :
    ∀ r : HookRun,
      (hookMain r = 0 ∨ hookMain r = 2) ∧
      (hookMain r = 2 ↔
        (r.stdinReadable = true ∧ r.parseOk = true ∧ r.toolName = "Bash" ∧
         (∃ cmd, r.command = some cmd ∧ cmd ≠ "") ∧ (∃ m, r.installMatch = some m) ∧
         r.alreadyAllowed = false ∧ r.hasConfig = true ∧
         (∃ v, r.api = ApiOutcome.ok v ∧ v ≠ "PROCEED") ∧ r.effectsThrow = false)) := by
  intro r
  rw [hookMain_eq, ← hookBlockCond_iff]
  constructor
  · cases hookBlockCond r <;> simp
  · cases hookBlockCond r <;> simp

/-- Claim C10: after the hook blocks a package and records it with
markAllowed, isAlreadyAllowed returns true for the same stored state and
any casing of the same package name, and a hook run that finds the
package already allowed exits 0 instead of being re-evaluated. -/
theorem mark_then_allowed :
    ∀ (st : StoredAllowed) (n n' : String) (r : HookRun),
      lowerStr n = lowerStr n' → r.alreadyAllowed = true →
      isAlreadyAllowed (markAllowed st n) n' = true ∧ hookMain r = 0 := by
  intro st n n' r h hr
  constructor
  · simp only [isAlreadyAllowed, markAllowed]
    rw [← h]
    exact List.elem_iff.mpr (List.mem_append_right _ (List.mem_singleton_self _))
  · rw [hookMain_eq]
    simp [hookBlockCond, hr]


/-- Witness for C10 at a concrete state, name pair and hook run. -/
theorem mark_then_allowed_witness :
    isAlreadyAllowed (markAllowed StoredAllowed.unreadable "LoDash") "lodash" = true ∧
    hookMain hookRunAllowed = 0 :=
  mark_then_allowed StoredAllowed.unreadable "LoDash" "lodash" hookRunAllowed (by decide) rfl

-- ── Totality / safety (C7) ──


/-- Claim C7: the core never raises on malformed or unexpected input:
categorizePackage totally returns a category or null; a missing result
field is treated as empty content by the detector's keyword matching; and
a bash command matching none of the install patterns contributes no
extracted packages. -/
theorem core_never_raises :
    (∀ name, categorizePackage name = none ∨ ∃ c, categorizePackage name = some c) ∧
    (∀ (sup : List String) (e : RawEvent), e.result = none →
      detectionsForEvent sup e = detectionsForEvent sup { e with result := some "" }) ∧
    (∀ cmd : String, installMatchers.all (fun m => (searchFrom m cmd.data).isNone) = true →
      extractPackageNames cmd = []) := by
  refine ⟨fun name => ?_, fun sup e h => ?_, fun cmd h => ?_⟩
  · cases categorizePackage name with
    | none => exact Or.inl rfl
    | some c => exact Or.inr ⟨c, rfl⟩
  · obtain ⟨id, sid, ts, ag, ac, raw, res, ec, cw⟩ := e
    simp only at h
    subst h
    rfl
  · simp only [installMatchers, List.all_cons, List.all_nil, Bool.and_eq_true,
      Option.isNone_iff_eq_none, and_true] at h
    obtain ⟨h1, h2, h3, h4, h5⟩ := h
    have hnone : firstCapture installMatchers cmd.data = none := by
      simp only [installMatchers, firstCapture, h1, h2, h3, h4, h5]
    simp only [extractPackageNames, hnone]

/-- Witness for C7 at concrete inputs: a non-install command extracts
nothing, and a result-less file_write is detected exactly like one with
empty content. -/
theorem core_never_raises_witness :
    extractPackageNames "ls -la" = [] ∧
    detectionsForEvent [] noResultEvent = detectionsForEvent [] { noResultEvent with result := some "" } :=
  ⟨core_never_raises.2.2 "ls -la" (by decide),
   core_never_raises.2.1 [] noResultEvent rfl⟩

-- ── Summary lemmas (C3) ──

lemma mem_insertByTotalDesc (x : SummaryEntry) :
    ∀ (l : List SummaryEntry) (a : SummaryEntry),
      a ∈ insertByTotalDesc x l ↔ a = x ∨ a ∈ l := by
  intro l
  induction l with
  | nil => intro a; simp [insertByTotalDesc]
  | cons y ys ih =>
    intro a
    simp only [insertByTotalDesc]
    split_ifs with h
    · simp [List.mem_cons]
    · simp only [List.mem_cons, ih a]
      tauto

lemma pairwise_insertByTotalDesc (x : SummaryEntry) :
    ∀ l : List SummaryEntry,
      List.Pairwise (fun a b => entryTotal b ≤ entryTotal a) l →
      List.Pairwise (fun a b => entryTotal b ≤ entryTotal a) (insertByTotalDesc x l) := by
  intro l
  induction l with
  | nil => intro _; exact List.pairwise_singleton _ _
  | cons y ys ih =>
    intro hp
    rw [List.pairwise_cons] at hp
    obtain ⟨hy, hys⟩ := hp
    simp only [insertByTotalDesc]
    split_ifs with h
    · refine List.pairwise_cons.mpr ⟨?_, List.pairwise_cons.mpr ⟨hy, hys⟩⟩
      intro b hb
      rcases List.mem_cons.mp hb with rfl | hb'
      · exact Nat.le_of_lt h
      · exact le_trans (hy b hb') (Nat.le_of_lt h)
    · refine List.pairwise_cons.mpr ⟨?_, ih hys⟩
      intro b hb
      rcases (mem_insertByTotalDesc x ys b).mp hb with rfl | hb'
      · exact Nat.le_of_not_lt h
      · exact hy b hb'

lemma mem_sortByTotalDesc (a : SummaryEntry) :
    ∀ l : List SummaryEntry, a ∈ sortByTotalDesc l ↔ a ∈ l := by
  intro l
  induction l with
  | nil => simp [sortByTotalDesc]
  | cons x xs ih =>
    simp only [sortByTotalDesc, mem_insertByTotalDesc, ih, List.mem_cons]

lemma pairwise_sortByTotalDesc :
    ∀ l : List SummaryEntry,
      List.Pairwise (fun a b => entryTotal b ≤ entryTotal a) (sortByTotalDesc l) := by
  intro l
  induction l with
  | nil => exact List.Pairwise.nil
  | cons x xs ih => exact pairwise_insertByTotalDesc x _ ih

lemma summaryRows_mem (cb : List CustomBuildEvent) (ie : List InstallEventInfo) :
    ∀ (cats : List String) (s : SummaryEntry), s ∈ summaryRows cb ie cats →
      s.category ∈ cats ∧
      s.installCount = (ie.filter (installEventInCategory s.category)).length ∧
      s.customBuildCount = (cb.filter (fun b => b.category == s.category)).length ∧
      0 < s.installCount + s.customBuildCount ∧
      s.customBuildPct = pctOf s.customBuildCount (s.installCount + s.customBuildCount) := by
  intro cats
  induction cats with
  | nil => intro s hs; simp [summaryRows] at hs
  | cons cat rest ih =>
    intro s hs
    simp only [summaryRows] at hs
    by_cases h0 : ((ie.filter (installEventInCategory cat)).length +
        (cb.filter (fun b => b.category == cat)).length == 0) = true
    · rw [if_pos h0] at hs
      obtain ⟨h1, h2, h3, h4, h5⟩ := ih s hs
      exact ⟨List.mem_cons_of_mem _ h1, h2, h3, h4, h5⟩
    · rw [if_neg h0] at hs
      rcases List.mem_cons.mp hs with rfl | hs'
      · refine ⟨List.mem_cons_self _ _, rfl, rfl, ?_, rfl⟩
        have hne : (ie.filter (installEventInCategory cat)).length +
            (cb.filter (fun b => b.category == cat)).length ≠ 0 := by
          simpa using h0
        show 0 < (ie.filter (installEventInCategory cat)).length +
          (cb.filter (fun b => b.category == cat)).length
        omega
      · obtain ⟨h1, h2, h3, h4, h5⟩ := ih s hs'
        exact ⟨List.mem_cons_of_mem _ h1, h2, h3, h4, h5⟩

lemma summaryRows_exists (cb : List CustomBuildEvent) (ie : List InstallEventInfo) :
    ∀ (cats : List String) (cat : String), cat ∈ cats →
      0 < (ie.filter (installEventInCategory cat)).length +
        (cb.filter (fun b => b.category == cat)).length →
      ∃ s ∈ summaryRows cb ie cats, s.category = cat := by
  intro cats
  induction cats with
  | nil => intro cat hcat; simp at hcat
  | cons c0 rest ih =>
    intro cat hcat hpos
    rcases List.mem_cons.mp hcat with rfl | hcat'
    · have h0 : ((ie.filter (installEventInCategory cat)).length +
          (cb.filter (fun b => b.category == cat)).length == 0) = false :=
        beq_eq_false_iff_ne.mpr (by omega)
      refine ⟨⟨cat, (ie.filter (installEventInCategory cat)).length,
        (cb.filter (fun b => b.category == cat)).length,
        pctOf (cb.filter (fun b => b.category == cat)).length
          ((ie.filter (installEventInCategory cat)).length +
            (cb.filter (fun b => b.category == cat)).length)⟩, ?_, rfl⟩
      simp only [summaryRows, h0]
      exact List.mem_cons_self _ _
    · obtain ⟨s, hs, hscat⟩ := ih cat hcat' hpos
      refine ⟨s, ?_, hscat⟩
      simp only [summaryRows]
      split_ifs
      · exact hs
      · exact List.mem_cons_of_mem _ hs

/-- Claim C3: getBuildVsBuySummary returns, for each taxonomy category
with a nonzero install-plus-custom total, one entry carrying the two
counts and customBuildPct equal to customBuildCount over total, times
100, rounded (half up) to two decimals; zero-total categories are
omitted; the result is sorted descending by total; and the concrete
3-install, 1-custom Authentication example yields exactly the entry with
pct 25. -/
theorem buildVsBuySummary_correct :
    ∀ (cb : List CustomBuildEvent) (ie : List InstallEventInfo),
      (∀ s ∈ getBuildVsBuySummary cb ie,
        0 < s.installCount + s.customBuildCount ∧
        s.installCount = (ie.filter (installEventInCategory s.category)).length ∧
        s.customBuildCount = (cb.filter (fun b => b.category == s.category)).length ∧
        s.customBuildPct = pctOf s.customBuildCount (s.installCount + s.customBuildCount)) ∧
      (∀ cat ∈ TOOL_CATEGORIES.map Prod.fst,
        0 < (ie.filter (installEventInCategory cat)).length +
          (cb.filter (fun b => b.category == cat)).length →
        ∃ s ∈ getBuildVsBuySummary cb ie, s.category = cat) ∧
      List.Pairwise (fun a b => entryTotal b ≤ entryTotal a) (getBuildVsBuySummary cb ie) ∧
      (∀ c t : Nat, pctOf c t = (⌊(c : ℚ) / (t : ℚ) * 100 * 100 + 1/2⌋ : ℚ) / 100) ∧
      getBuildVsBuySummary [exAuthBuild] exAuthInstalls = [⟨"Authentication", 3, 1, 25⟩] := by
  intro cb ie
  refine ⟨fun s hs => ?_, fun cat hcat hpos => ?_, ?_, fun c t => ?_, ?_⟩
  · obtain ⟨-, h2, h3, h4, h5⟩ := summaryRows_mem cb ie _ s
      ((mem_sortByTotalDesc s _).mp hs)
    exact ⟨h4, h2, h3, h5⟩
  · obtain ⟨s, hsmem, hscat⟩ := summaryRows_exists cb ie _ cat hcat hpos
    exact ⟨s, (mem_sortByTotalDesc s _).mpr hsmem, hscat⟩
  · exact pairwise_sortByTotalDesc _
  · have harith : (c : ℚ) / (t : ℚ) * 10000 = (c : ℚ) / (t : ℚ) * 100 * 100 := by ring
    simp only [pctOf, mathRound, harith]
  · have h : getBuildVsBuySummary [exAuthBuild] exAuthInstalls =
        [⟨"Authentication", 3, 1, pctOf 1 4⟩] := rfl
    rw [h, show (pctOf 1 4 : ℚ) = 25 from by norm_num [pctOf, mathRound]]

/-- Witness for C3 at the concrete Authentication example. -/
theorem buildVsBuySummary_correct_witness :
    ∃ s ∈ getBuildVsBuySummary [exAuthBuild] exAuthInstalls, s.category = "Authentication" :=
  (buildVsBuySummary_correct [exAuthBuild] exAuthInstalls).2.1 "Authentication"
    (by decide) (by decide)

-- ── Per-category filter lemmas for the detector (C5) ──


lemma pathGo_filter_ne (sup : List String) (fp c : String) :
    ∀ l : List (String × List PathPat), (∀ p ∈ l, p.1 ≠ c) →
      (pathDetectionsGo sup fp l).filter (fun d => d.category == c) = [] := by
  intro l
  induction l with
  | nil => intro _; simp [pathDetectionsGo]
  | cons hd rest ih =>
    intro hne
    obtain ⟨c0, ps0⟩ := hd
    have hc0 : c0 ≠ c := hne (c0, ps0) (List.mem_cons_self _ _)
    have hrest : ∀ p ∈ rest, p.1 ≠ c := fun p hp => hne p (List.mem_cons_of_mem _ hp)
    simp only [pathDetectionsGo]
    split_ifs with h1 h2
    · exact ih hrest
    · rw [List.filter_cons]
      simp only [show ((⟨c0, [fp], 60⟩ : Detection).category == c) = false by simpa using hc0]
      exact ih hrest
    · exact ih hrest

lemma pathGo_filter_len (sup : List String) (fp c : String) :
    ∀ l : List (String × List PathPat), (l.map Prod.fst).Nodup →
      ((pathDetectionsGo sup fp l).filter (fun d => d.category == c)).length ≤ 1 := by
  intro l
  induction l with
  | nil => intro _; simp [pathDetectionsGo]
  | cons hd rest ih =>
    intro hnd
    obtain ⟨c0, ps0⟩ := hd
    rw [List.map_cons, List.nodup_cons] at hnd
    obtain ⟨hnotin, hndrest⟩ := hnd
    by_cases hc : c0 = c
    · subst hc
      have hrest : (pathDetectionsGo sup fp rest).filter (fun d => d.category == c0) = [] :=
        pathGo_filter_ne sup fp c0 rest
          (fun p hp h => hnotin (by rw [← h]; exact List.mem_map.mpr ⟨p, hp, rfl⟩))
      simp only [pathDetectionsGo]
      split_ifs with h1 h2
      · rw [hrest]; simp
      · rw [List.filter_cons]
        simp only [beq_self_eq_true, if_true, hrest]
        simp
      · rw [hrest]; simp
    · simp only [pathDetectionsGo]
      split_ifs with h1 h2
      · exact ih hndrest
      · rw [List.filter_cons]
        simp only [show ((⟨c0, [fp], 60⟩ : Detection).category == c) = false by simpa using hc]
        exact ih hndrest
      · exact ih hndrest

lemma pathGo_filter_mem (sup : List String) (fp c : String) (pats : List PathPat) :
    ∀ l : List (String × List PathPat), (l.map Prod.fst).Nodup → (c, pats) ∈ l →
      sup.contains (catKey c) = false → pats.any (fun p => p.test fp) = true →
      (pathDetectionsGo sup fp l).filter (fun d => d.category == c) = [⟨c, [fp], 60⟩] := by
  intro l
  induction l with
  | nil => intro _ h; simp at h
  | cons hd rest ih =>
    intro hnd hmem hsup hany
    obtain ⟨c0, ps0⟩ := hd
    rw [List.map_cons, List.nodup_cons] at hnd
    obtain ⟨hnotin, hndrest⟩ := hnd
    rcases List.mem_cons.mp hmem with heq | hmem'
    · obtain ⟨rfl, rfl⟩ := Prod.mk.injEq .. ▸ heq
      have hrest : (pathDetectionsGo sup fp rest).filter (fun d => d.category == c) = [] :=
        pathGo_filter_ne sup fp c rest
          (fun p hp h => hnotin (by rw [← h]; exact List.mem_map.mpr ⟨p, hp, rfl⟩))
      simp only [pathDetectionsGo, hsup, hany]
      simp only [Bool.false_eq_true, if_false, if_true]
      rw [List.filter_cons]
      simp only [beq_self_eq_true, if_true, hrest]
    · have hc0 : c0 ≠ c := by
        intro h
        rw [h] at hnotin
        exact hnotin (List.mem_map.mpr ⟨(c, pats), hmem', rfl⟩)
      simp only [pathDetectionsGo]
      split_ifs with h1 h2
      · exact ih hndrest hmem' hsup hany
      · rw [List.filter_cons]
        simp only [show ((⟨c0, [fp], 60⟩ : Detection).category == c) = false by simpa using hc0]
        exact ih hndrest hmem' hsup hany
      · exact ih hndrest hmem' hsup hany

lemma mergeKeywordHit_filter_ne (cat c : String) (m : List String) (hne : cat ≠ c) :
    ∀ ds : List Detection, (mergeKeywordHit cat m ds).filter (fun d => d.category == c) =
      ds.filter (fun d => d.category == c) := by
  intro ds
  induction ds with
  | nil => rfl
  | cons d rest ih =>
    simp only [mergeKeywordHit]
    split_ifs with h
    · have hdc : (d.category == c) = false := by
        have hd : d.category = cat := by simpa using h
        simp [hd, hne]
      simp only [List.filter_cons, hdc]
      simp
    · simp only [List.filter_cons]
      rw [ih]

lemma filter_catEq_nil_iff (x : String) (ds : List Detection) :
    ds.filter (fun d => d.category == x) = [] ↔ ds.any (fun d => d.category == x) = false := by
  induction ds with
  | nil => simp
  | cons d rest ih =>
    simp only [List.filter_cons, List.any_cons]
    by_cases h : (d.category == x) = true
    · simp [h]
    · rw [Bool.not_eq_true] at h
      simp [h, ih]

lemma mergeKeywordHit_filter_eq (c : String) (m : List String) :
    ∀ (ds ds' : List Detection) (d : Detection),
      ds.filter (fun x => x.category == c) = d :: ds' →
      (mergeKeywordHit c m ds).filter (fun x => x.category == c) =
        ({ d with keywords := d.keywords ++ m,
                  confidence := min 95 (d.confidence + m.length * 10) }) :: ds' := by
  intro ds
  induction ds with
  | nil => intro ds' d h; simp at h
  | cons d0 rest ih =>
    intro ds' d h
    rw [List.filter_cons] at h
    simp only [mergeKeywordHit]
    by_cases h0 : (d0.category == c) = true
    · rw [if_pos h0] at h
      injection h with h1 h2
      subst h1
      rw [if_pos h0, List.filter_cons]
      have hupd : (({ d0 with keywords := d0.keywords ++ m,
                              confidence := min 95 (d0.confidence + m.length * 10) } :
          Detection).category == c) = true := h0
      rw [if_pos hupd, h2]
    · rw [if_neg h0] at h
      rw [if_neg h0, List.filter_cons, if_neg h0]
      exact ih ds' d h

lemma keywordStep_filter_ne (sup : List String) (content : String)
    (p : String × List String) (c : String) (hne : p.1 ≠ c) (ds : List Detection) :
    (keywordStep sup content ds p).filter (fun d => d.category == c) =
      ds.filter (fun d => d.category == c) := by
  simp only [keywordStep]
  split_ifs with h1 h2 h3
  · rfl
  · exact mergeKeywordHit_filter_ne p.1 c _ hne ds
  · rw [List.filter_append]
    have : ((⟨p.1, matchedKeywordsIn content p.2,
        40 + (matchedKeywordsIn content p.2).length * 10⟩ : Detection).category == c) = false := by
      simpa using hne
    simp [this]
  · rfl

lemma keywordStep_filter_eq (sup : List String) (content : String) (c : String)
    (kws : List String) (ds : List Detection) :
    (keywordStep sup content ds (c, kws)).filter (fun d => d.category == c) =
      keywordLocal sup content c kws (ds.filter (fun d => d.category == c)) := by
  simp only [keywordStep, keywordLocal]
  split_ifs with h1 h2 h3
  · rfl
  · have hne : ds.filter (fun d => d.category == c) ≠ [] := by
      intro hnil
      have h4 := (filter_catEq_nil_iff c ds).mp hnil
      rw [h4] at h3
      exact Bool.false_ne_true h3
    cases hfd : ds.filter (fun d => d.category == c) with
    | nil => exact absurd hfd hne
    | cons d ds' =>
      rw [mergeKeywordHit_filter_eq c _ ds ds' d hfd]
  · rw [Bool.not_eq_true] at h3
    rw [List.filter_append, (filter_catEq_nil_iff c ds).mpr h3]
    simp
  · rfl

lemma keywordPass_filter_ne (sup : List String) (content : String) (c : String) :
    ∀ (l : List (String × List String)) (ds : List Detection), (∀ p ∈ l, p.1 ≠ c) →
      (keywordPass sup content l ds).filter (fun d => d.category == c) =
        ds.filter (fun d => d.category == c) := by
  intro l
  induction l with
  | nil => intro ds _; rfl
  | cons p rest ih =>
    intro ds hne
    simp only [keywordPass]
    rw [ih _ (fun q hq => hne q (List.mem_cons_of_mem _ hq)),
      keywordStep_filter_ne sup content p c (hne p (List.mem_cons_self _ _)) ds]

lemma keywordPass_filter_mem (sup : List String) (content : String) (c : String) (kws : List String) :
    ∀ (l : List (String × List String)) (ds : List Detection),
      (l.map Prod.fst).Nodup → (c, kws) ∈ l →
      (keywordPass sup content l ds).filter (fun d => d.category == c) =
        keywordLocal sup content c kws (ds.filter (fun d => d.category == c)) := by
  intro l
  induction l with
  | nil => intro ds _ h; simp at h
  | cons p rest ih =>
    intro ds hnd hmem
    rw [List.map_cons, List.nodup_cons] at hnd
    obtain ⟨hnotin, hndrest⟩ := hnd
    simp only [keywordPass]
    rcases List.mem_cons.mp hmem with heq | hmem'
    · subst heq
      rw [keywordPass_filter_ne sup content c rest _
        (fun q hq h => hnotin (by rw [← h]; exact List.mem_map.mpr ⟨q, hq, rfl⟩))]
      exact keywordStep_filter_eq sup content c kws ds
    · have hp1 : p.1 ≠ c := fun h =>
        hnotin (by rw [h]; exact List.mem_map.mpr ⟨(c, kws), hmem', rfl⟩)
      rw [ih _ hndrest hmem', keywordStep_filter_ne sup content p c hp1 ds]

lemma keywordLocal_len (sup : List String) (content : String) (c : String) (kws : List String)
    (fds : List Detection) (h : fds.length ≤ 1) :
    (keywordLocal sup content c kws fds).length ≤ 1 := by
  simp only [keywordLocal]
  split_ifs with h1 h2
  · exact h
  · cases fds with
    | nil => simp
    | cons d ds' =>
      simp only [List.length_cons] at h ⊢
      omega
  · exact h

lemma detectionsForEvent_filter_len (sup : List String) (e : RawEvent) (c : String) :
    ((detectionsForEvent sup e).filter (fun d => d.category == c)).length ≤ 1 := by
  unfold detectionsForEvent
  by_cases hc : c ∈ DOMAIN_KEYWORDS.map Prod.fst
  · obtain ⟨p, hp, hfst⟩ := List.mem_map.mp hc
    have hmem : (c, p.2) ∈ DOMAIN_KEYWORDS := by rw [← hfst]; exact hp
    rw [keywordPass_filter_mem sup _ c p.2 DOMAIN_KEYWORDS _ nodup_domainKeywords hmem]
    exact keywordLocal_len _ _ _ _ _
      (pathGo_filter_len sup e.raw c DOMAIN_FILE_PATTERNS nodup_domainFilePatterns)
  · rw [keywordPass_filter_ne sup _ c DOMAIN_KEYWORDS _
      (fun p hp h => hc (by rw [← h]; exact List.mem_map.mpr ⟨p, hp, rfl⟩))]
    exact pathGo_filter_len sup e.raw c DOMAIN_FILE_PATTERNS nodup_domainFilePatterns

lemma detectionsForEvent_path_char (sup : List String) (e : RawEvent) (c : String)
    (pats : List PathPat) (kws : List String)
    (hpat : (c, pats) ∈ DOMAIN_FILE_PATTERNS) (hsup : sup.contains (catKey c) = false)
    (hany : pats.any (fun p => p.test e.raw) = true) (hkw : (c, kws) ∈ DOMAIN_KEYWORDS) :
    (detectionsForEvent sup e).filter (fun d => d.category == c) =
      keywordLocal sup (e.result.getD "") c kws [⟨c, [e.raw], 60⟩] := by
  unfold detectionsForEvent pathDetections
  rw [keywordPass_filter_mem sup _ c kws DOMAIN_KEYWORDS _ nodup_domainKeywords hkw,
    pathGo_filter_mem sup e.raw c pats DOMAIN_FILE_PATTERNS nodup_domainFilePatterns hpat hsup hany]


/-- Claim C5: for every file_write event and non-suppressed category, at
most one CustomBuildEvent per event-category pair is emitted; the
per-event contribution function detectionsForEvent determines
detectCustomImplementation; and when a path pattern of the category
matches, the detection has confidence 60 and keyword list holding only the
path if fewer than two content keywords match, while two or more matches
merge into that same detection, extending the keyword list and raising the
confidence by 10 per match, capped at 95. -/
theorem detect_one_per_event_category :
    ∀ (events : List RawEvent) (e : RawEvent) (c : String) (pats : List PathPat) (kws : List String),
      ((detectionsForEvent (installedPackages events) e).filter
        (fun d => d.category == c)).length ≤ 1 ∧
      detectCustomImplementation events =
        events.flatMap (fun ev =>
          if ev.action == "file_write" then
            (detectionsForEvent (installedPackages events) ev).map
              (fun d => ⟨ev, d.category, d.keywords, d.confidence⟩)
          else []) ∧
      ((c, pats) ∈ DOMAIN_FILE_PATTERNS →
        (installedPackages events).contains (catKey c) = false →
        pats.any (fun p => p.test e.raw) = true →
        (c, kws) ∈ DOMAIN_KEYWORDS →
        (((matchedKeywordsIn (e.result.getD "") kws).length < 2 →
            (detectionsForEvent (installedPackages events) e).filter
              (fun d => d.category == c) = [⟨c, [e.raw], 60⟩]) ∧
         (2 ≤ (matchedKeywordsIn (e.result.getD "") kws).length →
            (detectionsForEvent (installedPackages events) e).filter
              (fun d => d.category == c) =
              [⟨c, e.raw :: matchedKeywordsIn (e.result.getD "") kws,
                min 95 (60 + (matchedKeywordsIn (e.result.getD "") kws).length * 10)⟩]))) := by
  intro events e c pats kws
  refine ⟨detectionsForEvent_filter_len _ e c, rfl,
    fun hpat hsup hany hkw => ⟨fun hlt => ?_, fun hge => ?_⟩⟩
  · rw [detectionsForEvent_path_char _ e c pats kws hpat hsup hany hkw]
    simp only [keywordLocal, hsup, Bool.false_eq_true, if_false]
    rw [if_neg (by omega : ¬ 2 ≤ (matchedKeywordsIn (e.result.getD "") kws).length)]
  · rw [detectionsForEvent_path_char _ e c pats kws hpat hsup hany hkw]
    simp only [keywordLocal, hsup, Bool.false_eq_true, if_false]
    rw [if_pos hge]
    simp

/-- Witness for C5: a file_write to src/auth.ts whose content also holds
two Authentication keywords yields exactly one merged Authentication
detection with keywords path, verifyToken, signToken and confidence
min 95 (60 + 20) = 80. -/
theorem detect_one_per_event_category_witness :
    ("Authentication", authPatsW) ∈ DOMAIN_FILE_PATTERNS ∧
    ("Authentication", authKwsW) ∈ DOMAIN_KEYWORDS ∧
    (detectionsForEvent (installedPackages [authContentEvent]) authContentEvent).filter
        (fun d => d.category == "Authentication") =
      [⟨"Authentication", ["src/auth.ts", "verifyToken", "signToken"], 80⟩] :=
  ⟨by decide, by decide,
   (((detect_one_per_event_category [authContentEvent] authContentEvent "Authentication"
        authPatsW authKwsW).2.2 (by decide) (by decide) (by decide) (by decide)).2
      (by decide)).trans (by decide)⟩
